import Mathlib

/-
Verification development for the unitree drone-finder repository.

Shallow embedding notes:
* 3D points carry exact rational coordinates (`ℚ`).  The Python code compares
  `math.sqrt(dx^2+dy^2+dz^2) < CLUSTERING_DISTANCE`; since both sides are
  nonnegative this comparison is embedded as
  `dx^2+dy^2+dz^2 < CLUSTERING_DISTANCE^2`, which is exact over `ℚ`.
* The BFS flood fill in `SimpleDroneDetector.simple_clustering` is a while
  loop; it is embedded with an explicit fuel argument (structural recursion).
  `simple_clustering` passes fuel `2 * n + 1`, which is proved sufficient:
  every loop iteration pops one queue entry and every enqueued index is
  freshly marked used, so `2 * |unused| + |queue|` strictly decreases.
* Wire-format floats (f32/f64) are represented by their bit patterns
  (naturals below `2^32` / `2^64`); `struct.pack`/`struct.unpack` with the
  `=` (native little-endian, packed) layout is embedded as little-endian
  byte lists.  A datagram is a `List ℕ` of byte values.
-/

/-! ## Points and the clustering configuration (config.py, simple_drone_detector.py) -/

/-- A 3D point `(x, y, z)` with rational coordinates. -/
abbrev Point : Type := ℚ × ℚ × ℚ

/-- `DetectionConfig.CLUSTERING_DISTANCE = 0.5`. -/
def CLUSTERING_DISTANCE : ℚ := 1/2

/-- `DetectionConfig.MIN_POINTS_PER_CLUSTER = 3`. -/
def MIN_POINTS_PER_CLUSTER : ℕ := 3

/-- `DetectionConfig.DRONE_SIZE_MIN = 0.1`. -/
def DRONE_SIZE_MIN : ℚ := 1/10

/-- `DetectionConfig.DRONE_SIZE_MAX_XY = 2.0`. -/
def DRONE_SIZE_MAX_XY : ℚ := 2

/-- `DetectionConfig.DRONE_SIZE_MAX_Z = 1.0`. -/
def DRONE_SIZE_MAX_Z : ℚ := 1

/-- `DetectionConfig.DETECTION_DISTANCE_MIN = 1.0`. -/
def DETECTION_DISTANCE_MIN : ℚ := 1

/-- `DetectionConfig.DETECTION_DISTANCE_MAX = 50.0`. -/
def DETECTION_DISTANCE_MAX : ℚ := 50

/-- `DetectionConfig.MIN_HEIGHT = 0.5`. -/
def MIN_HEIGHT : ℚ := 1/2

/-- Detector field `self.min_cluster_size = 5`. -/
def min_cluster_size : ℕ := 5

/-- Detector field `self.max_cluster_size = 100`. -/
def max_cluster_size : ℕ := 100

/-- Detector field `self.min_height = 0.5` (height filter of `detect_objects`). -/
def detector_min_height : ℚ := 1/2

/-- Detector field `self.max_height = 10.0` (height filter of `detect_objects`). -/
def detector_max_height : ℚ := 10

/-- Square of `SimpleDroneDetector.calculate_distance` (the code returns
`math.sqrt` of this sum; all comparisons against it are embedded squared). -/
def calculate_distance_sq (p q : Point) : ℚ :=
  (p.1 - q.1)^2 + (p.2.1 - q.2.1)^2 + (p.2.2 - q.2.2)^2

/-- The comparison `calculate_distance(p, q) < DetectionConfig.CLUSTERING_DISTANCE`
from `simple_clustering`, embedded squared (both sides nonnegative). -/
def close (p q : Point) : Bool :=
  decide (calculate_distance_sq p q < CLUSTERING_DISTANCE^2)

/-- `points[i]` (all accesses in the loops stay in bounds). -/
def pt (ps : List Point) (i : ℕ) : Point := ps.getD i ((0 : ℚ), (0 : ℚ), (0 : ℚ))

/-- One `for j, other_point in enumerate(points)` pass of the inner while loop
of `simple_clustering`: the unused indices within threshold of `points[c]`, in
index order.  The pass is a single batch because each index is tested against
`used` exactly once. -/
def newNeighbors (ps : List Point) (used : Finset ℕ) (c : ℕ) : List ℕ :=
  (List.range ps.length).filter
    (fun j => !(decide (j ∈ used)) && close (pt ps c) (pt ps j))

/-- The inner while loop of `simple_clustering`: pop `c` from the queue, then
move every unused point within threshold of `points[c]` into the cluster, the
used set and the queue.  `fuel` bounds the number of iterations of the while
loop (see header note). -/
def bfsAux (ps : List Point) : ℕ → Finset ℕ → List ℕ → List ℕ → Finset ℕ × List ℕ
  | _, used, [], acc => (used, acc)
  | 0, used, _ :: _, acc => (used, acc)
  | fuel + 1, used, c :: rest, acc =>
    bfsAux ps fuel (used ∪ (newNeighbors ps used c).toFinset)
      (rest ++ newNeighbors ps used c) (acc ++ newNeighbors ps used c)

/-- The outer `for i, point in enumerate(points)` loop of `simple_clustering`,
producing clusters as lists of indices into `ps`. -/
def clusterLoop (ps : List Point) : Finset ℕ → List ℕ → List (List ℕ)
  | _, [] => []
  | used, i :: rest =>
    if i ∈ used then clusterLoop ps used rest
    else
      let r := bfsAux ps (2 * ps.length + 1) (insert i used) [i] [i]
      r.2 :: clusterLoop ps r.1 rest

/-- Index-level result of `simple_clustering`. -/
def clusterIdx (ps : List Point) : List (List ℕ) :=
  clusterLoop ps ∅ (List.range ps.length)

/-- `SimpleDroneDetector.simple_clustering`: clusters as lists of points. -/
def simple_clustering (ps : List Point) : List (List Point) :=
  (clusterIdx ps).map (fun cl => cl.map (pt ps))

/-! ## Cluster analysis (simple_drone_detector.py) -/

/-- Python `max` over a nonempty list (`max(p[k] for p in cluster)`). -/
def maxOf (l : List ℚ) : ℚ :=
  match l with
  | [] => 0
  | x :: xs => xs.foldl max x

/-- Python `min` over a nonempty list. -/
def minOf (l : List ℚ) : ℚ :=
  match l with
  | [] => 0
  | x :: xs => xs.foldl min x

/-- `size_x = max_x - min_x` in `analyze_cluster`. -/
def sizeX (cl : List Point) : ℚ := maxOf (cl.map (fun p => p.1)) - minOf (cl.map (fun p => p.1))

/-- `size_y = max_y - min_y` in `analyze_cluster`. -/
def sizeY (cl : List Point) : ℚ := maxOf (cl.map (fun p => p.2.1)) - minOf (cl.map (fun p => p.2.1))

/-- `size_z = max_z - min_z` in `analyze_cluster`. -/
def sizeZ (cl : List Point) : ℚ := maxOf (cl.map (fun p => p.2.2)) - minOf (cl.map (fun p => p.2.2))

/-- `SimpleDroneDetector.calculate_confidence(cluster, size_x, size_y, size_z)`.
`size_z` is accepted but unused, exactly as in the source. -/
def calculate_confidence (cl : List Point) (sx sy _sz : ℚ) : ℚ :=
  let point_confidence := min ((cl.length : ℚ) / 20) 1
  let ar := max sx sy / (min sx sy + 1/100)
  let size_confidence := max 0 (1 - |ar - 1|)
  (point_confidence + size_confidence) / 2

/-- Result dictionary of `analyze_cluster`.  The code stores
`distance = sqrt(center_x^2 + center_y^2)`; the field `distanceSq` holds the
radicand and every comparison against it is embedded squared. -/
structure ObjInfo where
  center : Point
  size : Point
  distanceSq : ℚ
  pointCount : ℕ
  isDroneLike : Bool
  confidence : ℚ
deriving DecidableEq

/-- `SimpleDroneDetector.analyze_cluster`. -/
def analyze_cluster (cl : List Point) : Option ObjInfo :=
  if cl.length < MIN_POINTS_PER_CLUSTER then none
  else
    let n : ℚ := cl.length
    let cx := (cl.map (fun p => p.1)).sum / n
    let cy := (cl.map (fun p => p.2.1)).sum / n
    let cz := (cl.map (fun p => p.2.2)).sum / n
    let sx := sizeX cl
    let sy := sizeY cl
    let sz := sizeZ cl
    let dSq := cx^2 + cy^2
    let isDrone :=
      decide (DRONE_SIZE_MIN ≤ sx) && decide (sx ≤ DRONE_SIZE_MAX_XY) &&
      decide (DRONE_SIZE_MIN ≤ sy) && decide (sy ≤ DRONE_SIZE_MAX_XY) &&
      decide (DRONE_SIZE_MIN ≤ sz) && decide (sz ≤ DRONE_SIZE_MAX_Z) &&
      decide (DETECTION_DISTANCE_MIN^2 ≤ dSq) && decide (dSq ≤ DETECTION_DISTANCE_MAX^2) &&
      decide (MIN_HEIGHT ≤ cz)
    some ⟨(cx, cy, cz), (sx, sy, sz), dSq, cl.length, isDrone,
      calculate_confidence cl sx sy sz⟩

/-- The height filter at the top of `detect_objects`:
`self.min_height <= point[2] <= self.max_height`. -/
def heightFiltered (ps : List Point) : List Point :=
  ps.filter (fun p => decide (detector_min_height ≤ p.2.2) && decide (p.2.2 ≤ detector_max_height))

/-- `SimpleDroneDetector.detect_objects`. -/
def detect_objects (ps : List Point) : List ObjInfo :=
  let valid := heightFiltered ps
  if valid.length < min_cluster_size then []
  else
    (simple_clustering valid).filterMap (fun cl =>
      if min_cluster_size ≤ cl.length ∧ cl.length ≤ max_cluster_size
      then analyze_cluster cl else none)

/-! ## Reachability (the graph semantics of the clustering threshold) -/

/-- Adjacency between indices of the clustering input: both in range and the
distance comparison of the source succeeds. -/
def Adj (ps : List Point) (i j : ℕ) : Prop :=
  i < ps.length ∧ j < ps.length ∧ close (pt ps i) (pt ps j) = true

/-- Reachability between indices through the threshold graph. -/
def Reaches (ps : List Point) : ℕ → ℕ → Prop :=
  Relation.ReflTransGen (Adj ps)

/-- A chain `p = p0, p1, ..., pk = q` of points of the input list whose
consecutive pairs are within the clustering distance (claim C1's notion). -/
def closeChain (ps : List Point) : Point → Point → Prop :=
  Relation.ReflTransGen (fun p q => p ∈ ps ∧ q ∈ ps ∧ close p q = true)

/-! ## Wire codec (lidar_udp_receiver.py, mock_udp_publisher.py)

Bytes are naturals (`< 256` where relevant); multi-byte fields use the
little-endian order of `struct`'s `=` layout on the target platform.  Float
fields are carried as their bit patterns. -/

/-- Little-endian encoding of `v` on `w` bytes (`struct.pack`). -/
def natToBytes : ℕ → ℕ → List ℕ
  | 0, _ => []
  | w + 1, v => v % 256 :: natToBytes w (v / 256)

/-- Little-endian decoding of a byte list (`struct.unpack`). -/
def bytesToNat : List ℕ → ℕ
  | [] => 0
  | b :: bs => b + 256 * bytesToNat bs

/-- The slice `B[off : off+len]` of a datagram. -/
def seg (B : List ℕ) (off len : ℕ) : List ℕ := (B.drop off).take len

/-- One `=fffffI` point record: `x, y, z, intensity, time` as f32 bit
patterns, `ring` as u32. -/
structure PointRec where
  x : ℕ
  y : ℕ
  z : ℕ
  intensity : ℕ
  timeOff : ℕ
  ring : ℕ
deriving DecidableEq

/-- All six 4-byte fields of a point are in range. -/
def PointRec.Valid (p : PointRec) : Prop :=
  p.x < 2^32 ∧ p.y < 2^32 ∧ p.z < 2^32 ∧
  p.intensity < 2^32 ∧ p.timeOff < 2^32 ∧ p.ring < 2^32

instance (p : PointRec) : Decidable p.Valid := by unfold PointRec.Valid; infer_instance

/-- A decoded scan message (`ScanUnitree`): the stored `validPointsNum`
always equals `points.length`, so it is not a separate field. -/
structure ScanRec where
  stamp : ℕ
  id : ℕ
  points : List PointRec
deriving DecidableEq

/-- Field ranges of a scan record. -/
def ScanRec.Valid (s : ScanRec) : Prop :=
  s.stamp < 2^64 ∧ s.id < 2^32 ∧ s.points.length < 2^32 ∧ ∀ p ∈ s.points, p.Valid

instance (s : ScanRec) : Decidable s.Valid := by unfold ScanRec.Valid; infer_instance

/-- A decoded IMU message (`IMUUnitree`), fields in `=dI4f3f3f` order. -/
structure ImuRec where
  stamp : ℕ
  id : ℕ
  q0 : ℕ
  q1 : ℕ
  q2 : ℕ
  q3 : ℕ
  wx : ℕ
  wy : ℕ
  wz : ℕ
  ax : ℕ
  ay : ℕ
  az : ℕ
deriving DecidableEq

/-- Field ranges of an IMU record. -/
def ImuRec.Valid (r : ImuRec) : Prop :=
  r.stamp < 2^64 ∧ r.id < 2^32 ∧ r.q0 < 2^32 ∧ r.q1 < 2^32 ∧ r.q2 < 2^32 ∧
  r.q3 < 2^32 ∧ r.wx < 2^32 ∧ r.wy < 2^32 ∧ r.wz < 2^32 ∧ r.ax < 2^32 ∧
  r.ay < 2^32 ∧ r.az < 2^32

instance (r : ImuRec) : Decidable r.Valid := by unfold ImuRec.Valid; infer_instance

/-- `struct.pack(point_data_str, x, y, z, intensity, time, ring)`. -/
def encodePoint (p : PointRec) : List ℕ :=
  natToBytes 4 p.x ++ natToBytes 4 p.y ++ natToBytes 4 p.z ++
  natToBytes 4 p.intensity ++ natToBytes 4 p.timeOff ++ natToBytes 4 p.ring

/-- `MockUDPPublisher.send_scan_message`: header `=II (102, 16 + 24*n)`,
then `=dII (stamp, id, n)`, then the packed points. -/
def sendScanBytes (s : ScanRec) : List ℕ :=
  natToBytes 4 102 ++ natToBytes 4 (16 + 24 * s.points.length) ++
  natToBytes 8 s.stamp ++ natToBytes 4 s.id ++ natToBytes 4 s.points.length ++
  (s.points.map encodePoint).flatten

/-- `MockUDPPublisher.send_imu_message`: header `=II (101, 52)` (52 is
`calcsize("=dI4f3f3f")`), then the packed IMU fields. -/
def sendImuBytes (r : ImuRec) : List ℕ :=
  natToBytes 4 101 ++ natToBytes 4 52 ++
  natToBytes 8 r.stamp ++ natToBytes 4 r.id ++
  natToBytes 4 r.q0 ++ natToBytes 4 r.q1 ++ natToBytes 4 r.q2 ++ natToBytes 4 r.q3 ++
  natToBytes 4 r.wx ++ natToBytes 4 r.wy ++ natToBytes 4 r.wz ++
  natToBytes 4 r.ax ++ natToBytes 4 r.ay ++ natToBytes 4 r.az

/-- Decode one point record starting at byte `a` of the datagram. -/
def decodePointAt (B : List ℕ) (a : ℕ) : PointRec :=
  ⟨bytesToNat (seg B a 4), bytesToNat (seg B (a + 4) 4), bytesToNat (seg B (a + 8) 4),
   bytesToNat (seg B (a + 12) 4), bytesToNat (seg B (a + 16) 4), bytesToNat (seg B (a + 20) 4)⟩

/-- The point-reading loop of `_parse_scan_message`: `struct.unpack` raises
(`none`) exactly when the 24-byte slice runs past the datagram end. -/
def readPoints (B : List ℕ) : ℕ → ℕ → Option (List PointRec)
  | _, 0 => some []
  | a, k + 1 =>
    if a + 24 ≤ B.length then
      match readPoints B (a + 24) k with
      | some ps => some (decodePointAt B a :: ps)
      | none => none
    else none

/-- `LidarUDPReceiver._parse_scan_message` body (without the `try`): the
declared length at bytes 4..8 is read and discarded by the source; `stamp`
at 8..16, `id` at 16..20, `valid_points_num` at 20..24, then the points.  All
of the source's `struct.unpack` failures on the fixed header collapse to
`B.length < 24`. -/
def parseScanMsg (B : List ℕ) : Option ScanRec :=
  if B.length < 24 then none
  else
    match readPoints B 24 (bytesToNat (seg B 20 4)) with
    | some pts => some ⟨bytesToNat (seg B 8 8), bytesToNat (seg B 16 4), pts⟩
    | none => none

/-- `LidarUDPReceiver._parse_imu_message` body (without the `try`): the
declared length at bytes 4..8 is read and discarded; `=dI4f3f3f` is unpacked
from bytes 8..60, raising (`none`) iff fewer than 60 bytes are present. -/
def parseImuMsg (B : List ℕ) : Option ImuRec :=
  if B.length < 60 then none
  else
    some ⟨bytesToNat (seg B 8 8), bytesToNat (seg B 16 4),
      bytesToNat (seg B 20 4), bytesToNat (seg B 24 4), bytesToNat (seg B 28 4),
      bytesToNat (seg B 32 4), bytesToNat (seg B 36 4), bytesToNat (seg B 40 4),
      bytesToNat (seg B 44 4), bytesToNat (seg B 48 4), bytesToNat (seg B 52 4),
      bytesToNat (seg B 56 4)⟩

/-- A decoded message of either kind. -/
abbrev Msg : Type := ScanRec ⊕ ImuRec

/-- Re-encoding with the publisher's pack routines. -/
def encodeMsg : Msg → List ℕ
  | Sum.inl s => sendScanBytes s
  | Sum.inr r => sendImuBytes r

/-- The receive loop's dispatch on `message_type` (bytes 0..4) followed by the
matching parse routine; `none` for an unknown type or a parse failure. -/
def decodeMsg (B : List ℕ) : Option Msg :=
  if B.length < 4 then none
  else
    let t := bytesToNat (seg B 0 4)
    if t = 101 then (parseImuMsg B).map Sum.inr
    else if t = 102 then (parseScanMsg B).map Sum.inl
    else none

/-- A well-formed datagram: one produced by the publisher's pack routines
from in-range field values (its `declared_length` therefore equals the actual
payload length). -/
def WellFormedMsg (B : List ℕ) : Prop :=
  (∃ s : ScanRec, s.Valid ∧ B = sendScanBytes s) ∨
  (∃ r : ImuRec, r.Valid ∧ B = sendImuBytes r)

/-! ## Ingestion service state (lidar_udp_receiver.py) -/

/-- `LidarPointCloud` produced by `_convert_to_point_cloud`: timestamp,
`(x, y, z)` rows and the intensity column (bit patterns). -/
structure CloudRec where
  timestamp : ℕ
  pts : List (ℕ × ℕ × ℕ)
  intens : List ℕ
deriving DecidableEq

/-- `LidarUDPReceiver._convert_to_point_cloud`. -/
def convertCloud (s : ScanRec) : CloudRec :=
  ⟨s.stamp, s.points.map (fun p => (p.x, p.y, p.z)), s.points.map (fun p => p.intensity)⟩

deriving instance DecidableEq for Except

/-- The receiver's mutex-guarded cache. -/
structure RecvState where
  latestScan : Option ScanRec
  latestImu : Option ImuRec
  latestCloud : Option CloudRec
deriving DecidableEq

/-- One iteration of `LidarUDPReceiver._data_receiving_loop` on a received
datagram.  `Except.error` is the `break` taken when an exception escapes the
loop body (only possible here when the 4-byte `message_type` unpack fails);
the two parse methods swallow their own exceptions, leaving the cache
untouched, and an unknown type only logs. -/
def receiverStep (s : RecvState) (B : List ℕ) : Except Unit RecvState :=
  if B.length < 4 then Except.error ()
  else
    let t := bytesToNat (seg B 0 4)
    if t = 101 then
      Except.ok (match parseImuMsg B with
        | some r => { s with latestImu := some r }
        | none => s)
    else if t = 102 then
      Except.ok (match parseScanMsg B with
        | some r => { s with latestScan := some r, latestCloud := some (convertCloud r) }
        | none => s)
    else Except.ok s

/-- Connection-relevant state of `LidarUDPReceiver` (`__init__` leaves
`socket = None`, `running = False`, no thread). -/
structure ReceiverConn where
  socket : Option Unit
  running : Bool
  threadSpawned : Bool
deriving DecidableEq

/-- The receiver as constructed. -/
def initReceiver : ReceiverConn := ⟨none, false, false⟩

/-- `LidarUDPReceiver.connect`: `self.socket = socket.socket(...)` is assigned
first (socket creation itself succeeds); if the subsequent `bind` raises
(`bindOk = false`) the exception handler returns `False` — but `self.socket`
has already been set. -/
def connectFn (s : ReceiverConn) (bindOk : Bool) : Bool × ReceiverConn :=
  let s' := { s with socket := some () }
  (bindOk, s')

/-- `LidarUDPReceiver.start_streaming`: fails only when `self.socket is None`;
otherwise sets `running` and spawns the receive thread. -/
def start_streaming (s : ReceiverConn) : Bool × ReceiverConn :=
  match s.socket with
  | none => (false, s)
  | some _ => (true, { s with running := true, threadSpawned := true })

/-! ## Recorder (lidar_data_recorder.py)

The recorder stores each scan's points as a numpy `float32` array built with
`np.array(rows)`.  The minimal numpy fragment the source relies on is
embedded: `np.array` of a list of equal-width rows yields shape
`[n, width]`, of an empty list shape `[0]`; `len()` is the first shape
entry; `np.vstack` promotes 1-D arrays to one row (`atleast_2d`) and
concatenates along the first axis, raising when the widths disagree. -/

/-- A numpy array: its shape and its rows (a 1-D array keeps its entries in
a single conceptual row only after `atleast_2d`; `np.array([])` has no
rows and shape `[0]`). -/
structure NpArr where
  shape : List ℕ
  rows : List (List ℕ)
deriving DecidableEq

/-- `np.array(rows)` for a list of equal-width rows (empty → shape `[0]`). -/
def npOfRows (rows : List (List ℕ)) : NpArr :=
  match rows with
  | [] => ⟨[0], []⟩
  | r :: rs => ⟨[(r :: rs).length, r.length], r :: rs⟩

/-- Python `len` of a numpy array: the first shape entry. -/
def npLen (a : NpArr) : ℕ := a.shape.headD 0

/-- `np.atleast_2d`: a 1-D array of `k` entries becomes one row of width `k`. -/
def atleast2d (a : NpArr) : NpArr :=
  match a.shape with
  | [k] => ⟨[1, k], [a.rows.flatten]⟩
  | _ => a

/-- `np.vstack`: raises (`Except.error`) when the row widths of the
`atleast_2d`-promoted inputs disagree. -/
def vstack (arrs : List NpArr) : Except Unit NpArr :=
  match arrs.map atleast2d with
  | [] => Except.error ()
  | b :: bs =>
    let w := b.shape.getD 1 0
    if bs.all (fun c => c.shape.getD 1 0 = w) then
      Except.ok ⟨[((b :: bs).map (fun c => c.shape.headD 0)).sum, w],
        ((b :: bs).map NpArr.rows).flatten⟩
    else Except.error ()

/-- One entry of `self.scan_data` as stored by `process_scan_message`
(`system_time` is wall-clock and not modelled). -/
structure StoredScan where
  stamp : ℕ
  id : ℕ
  validPoints : ℕ
  pointsArr : NpArr
deriving DecidableEq

/-- `LidarDataRecorder.process_scan_message` on an already-parsed scan:
each point becomes the row `[x, y, z, intensity, time, ring]` and the rows
become a numpy array; `valid_points` is the message's `validPointsNum`
(which the parser guarantees equals `points.length`). -/
def processScanStored (r : ScanRec) : StoredScan :=
  ⟨r.stamp, r.id, r.points.length,
   npOfRows (r.points.map (fun p => [p.x, p.y, p.z, p.intensity, p.timeOff, p.ring]))⟩

/-- The recorder's mutable state. -/
structure RecState where
  scanData : List StoredScan
  imuData : List ImuRec
  scanCount : ℕ
  imuCount : ℕ
deriving DecidableEq

/-- The recorder as constructed. -/
def initRecState : RecState := ⟨[], [], 0, 0⟩

/-- One datagram processed inside `LidarDataRecorder.record`'s while loop.
Unlike the receiver, `process_scan_message` / `process_imu_message` have no
internal `try`: a `struct.unpack` failure raises to the `except Exception`
handler wrapped around the whole loop, ending recording (`Except.error`).
An unknown message type only logs and continues. -/
def recordStep (s : RecState) (B : List ℕ) : Except Unit RecState :=
  if B.length < 4 then Except.error ()
  else
    let t := bytesToNat (seg B 0 4)
    if t = 101 then
      match parseImuMsg B with
      | some r => Except.ok { s with imuData := s.imuData ++ [r], imuCount := s.imuCount + 1 }
      | none => Except.error ()
    else if t = 102 then
      match parseScanMsg B with
      | some r => Except.ok
          { s with scanData := s.scanData ++ [processScanStored r], scanCount := s.scanCount + 1 }
      | none => Except.error ()
    else Except.ok s

/-- `LidarDataRecorder.record`'s loop over a stream of datagram arrivals.
Each event carries the wall-clock value observed at the stop-condition check
preceding its receive.  Both stop checks run before every receive, in source
order (`scan_count >= max_scans`, then elapsed `>= max_duration`); an
exception escaping a message handler also ends the loop. -/
def recordRun (maxScans : ℕ) (maxDuration t0 : ℚ) (s : RecState) :
    List (ℚ × List ℕ) → RecState
  | [] => s
  | (t, d) :: rest =>
    if maxScans ≤ s.scanCount then s
    else if maxDuration ≤ t - t0 then s
    else
      match recordStep s d with
      | Except.ok s' => recordRun maxScans maxDuration t0 s' rest
      | Except.error _ => s

/-- The point block of a saved archive: the `points` array and the
`point_scan_indices` array. -/
structure PointBlock where
  points : NpArr
  pointScanIndices : List ℕ
deriving DecidableEq

/-- The named arrays of one saved recording (`save_data`'s `save_dict`;
IMU columns carry the same per-record fields and are kept as the stored
records; wall-clock metadata is not modelled). -/
structure Archive where
  scanCount : ℕ
  imuCount : ℕ
  scanTimestamps : List ℕ
  scanIds : List ℕ
  scanValidPoints : List ℕ
  pointBlock : Option PointBlock
  imuData : List ImuRec
deriving DecidableEq

/-- `LidarDataRecorder.save_data`: returns `none` when there is nothing to
save; otherwise concatenates the per-scan point arrays with `np.vstack`
(`Except.error` when that raises) and builds the `point_scan_indices` list
with one entry per row of each scan's stored array (`[i] * len(points)`). -/
def save_data (s : RecState) : Except Unit (Option Archive) :=
  if s.scanData.isEmpty && s.imuData.isEmpty then Except.ok none
  else if s.scanData.isEmpty then
    Except.ok (some ⟨s.scanCount, s.imuCount, [], [], [], none, s.imuData⟩)
  else
    match vstack (s.scanData.map (fun sc => sc.pointsArr)) with
    | Except.error _ => Except.error ()
    | Except.ok arr =>
      Except.ok (some ⟨s.scanCount, s.imuCount,
        s.scanData.map (fun sc => sc.stamp),
        s.scanData.map (fun sc => sc.id),
        s.scanData.map (fun sc => sc.validPoints),
        some ⟨arr, (s.scanData.enum.map
          (fun q => List.replicate (npLen q.2.pointsArr) q.1)).flatten⟩,
        s.imuData⟩)

/-! ## Concrete inputs used by witnesses and counterexamples -/

/-- The three points of spec scenario 7: two within 0.1 m, one far away. -/
def scenarioPoints : List Point :=
  [((0:ℚ), (0:ℚ), (1:ℚ)), ((1/10 : ℚ), (0:ℚ), (1:ℚ)), ((5:ℚ), (5:ℚ), (1:ℚ))]

/-- Five chained points 0.1 m apart at height 1 m: one cluster of five. -/
def fivePoints : List Point :=
  [((0:ℚ), (0:ℚ), (1:ℚ)), ((1/10 : ℚ), (0:ℚ), (1:ℚ)), ((2/10 : ℚ), (0:ℚ), (1:ℚ)),
   ((3/10 : ℚ), (0:ℚ), (1:ℚ)), ((4/10 : ℚ), (0:ℚ), (1:ℚ))]

/-- A placeholder object for safe list access in witnesses. -/
def objDefault : ObjInfo := ⟨((0:ℚ), (0:ℚ), (0:ℚ)), ((0:ℚ), (0:ℚ), (0:ℚ)), 0, 0, false, 0⟩

/-- A scan with zero points (`valid_count = 0`). -/
def emptyScan : ScanRec := ⟨0, 0, []⟩

/-- A scan with one point. -/
def onePointScan : ScanRec := ⟨0, 0, [⟨0, 0, 0, 0, 0, 0⟩]⟩

/-- A well-formed zero-point scan datagram. -/
def goodScanBytes : List ℕ := sendScanBytes emptyScan

/-- A scan datagram declaring one point but carrying no point bytes
(24 bytes total, `valid_count = 1`): its decode fails. -/
def truncScanBytes : List ℕ :=
  natToBytes 4 102 ++ natToBytes 4 40 ++ natToBytes 8 0 ++ natToBytes 4 0 ++ natToBytes 4 1

/-- A datagram with the unrecognized message type 999. -/
def badTypeBytes : List ℕ := natToBytes 4 999 ++ natToBytes 4 0

/-- A type-101 datagram with a 48-byte payload, as claim C3 describes the
IMU message. -/
def imu48Bytes : List ℕ := natToBytes 4 101 ++ natToBytes 4 48 ++ List.replicate 48 0

/-- The stored form of a zero-point scan. -/
def zeroStored : StoredScan := processScanStored emptyScan

/-- Recorder state holding two zero-point scans. -/
def recTwoZero : RecState := ⟨[zeroStored, zeroStored], [], 2, 0⟩

/-- Recorder state holding a one-point scan and a zero-point scan. -/
def recMixed : RecState := ⟨[processScanStored onePointScan, zeroStored], [], 2, 0⟩

/-- The archive produced from `recTwoZero`: the concatenated points array has
shape `(2, 0)` — two rows of width zero — and the index array is empty. -/
def archTwoZero : Archive :=
  ⟨2, 0, [0, 0], [0, 0], [0, 0], some ⟨⟨[2, 0], [[], []]⟩, []⟩, []⟩

/-- Four zero-point scan datagrams arriving at seconds 0..3. -/
def recEvents : List (ℚ × List ℕ) :=
  [((0:ℚ), goodScanBytes), ((1:ℚ), goodScanBytes), ((2:ℚ), goodScanBytes), ((3:ℚ), goodScanBytes)]


/-! ## Byte-level lemmas for the codec -/

@[simp] theorem length_natToBytes : ∀ w v, (natToBytes w v).length = w
  | 0, _ => rfl
  | w + 1, v => by simp [natToBytes, length_natToBytes w]

theorem natToBytes_lt : ∀ w v, ∀ b ∈ natToBytes w v, b < 256
  | 0, _ => by simp [natToBytes]
  | w + 1, v => by
    simp only [natToBytes, List.mem_cons]
    rintro b (rfl | hb)
    · exact Nat.mod_lt _ (by norm_num)
    · exact natToBytes_lt w _ b hb

theorem bytesToNat_natToBytes : ∀ w v, v < 256 ^ w → bytesToNat (natToBytes w v) = v
  | 0, v, h => by simpa [natToBytes, bytesToNat] using (Nat.lt_one_iff.mp (by simpa using h)).symm
  | w + 1, v, h => by
    have hdiv : v / 256 < 256 ^ w := by
      rw [Nat.div_lt_iff_lt_mul (by norm_num)]
      calc v < 256 ^ (w + 1) := h
        _ = 256 ^ w * 256 := by ring
    simp [natToBytes, bytesToNat, bytesToNat_natToBytes w _ hdiv]
    omega

theorem seg_prefix_eq {xs : List ℕ} (ys : List ℕ) {l : ℕ} (h : xs.length = l) :
    seg (xs ++ ys) 0 l = xs := by
  simp [seg, List.take_left' h]

theorem seg_append_add (xs ys : List ℕ) (m l : ℕ) :
    seg (xs ++ ys) (xs.length + m) l = seg ys m l := by
  simp [seg, ← List.drop_drop, List.drop_left]

theorem seg_append_zero (xs ys : List ℕ) (l : ℕ) :
    seg (xs ++ ys) (xs.length) l = seg ys 0 l :=
  seg_append_add xs ys 0 l

theorem seg_append_ge {xs : List ℕ} (ys : List ℕ) {off : ℕ} (l : ℕ)
    (h : xs.length ≤ off) : seg (xs ++ ys) off l = seg ys (off - xs.length) l := by
  obtain ⟨m, rfl⟩ := Nat.exists_eq_add_of_le h
  simpa using seg_append_add xs ys m l

@[simp] theorem length_encodePoint (p : PointRec) : (encodePoint p).length = 24 := by
  simp [encodePoint]

theorem length_flatten_encode :
    ∀ pts : List PointRec, ((pts.map encodePoint).flatten).length = 24 * pts.length
  | [] => rfl
  | p :: pts => by
    simp [length_flatten_encode pts]
    ring

@[simp] theorem length_sendImuBytes (r : ImuRec) : (sendImuBytes r).length = 60 := by
  simp [sendImuBytes]

@[simp] theorem length_sendScanBytes (s : ScanRec) :
    (sendScanBytes s).length = 24 + 24 * s.points.length := by
  rw [sendScanBytes]
  simp only [List.length_append, length_natToBytes, length_flatten_encode]

theorem bytesToNat_nb4 {v : ℕ} (h : v < 2^32) : bytesToNat (natToBytes 4 v) = v :=
  bytesToNat_natToBytes 4 v (by norm_num at h ⊢; omega)

theorem bytesToNat_nb8 {v : ℕ} (h : v < 2^64) : bytesToNat (natToBytes 8 v) = v :=
  bytesToNat_natToBytes 8 v (by norm_num at h ⊢; omega)

theorem decodePointAt_encoded (pre suf : List ℕ) (p : PointRec) (hp : p.Valid) :
    decodePointAt (pre ++ (encodePoint p ++ suf)) pre.length = p := by
  obtain ⟨x, y, z, it, tm, rg⟩ := p
  obtain ⟨h1, h2, h3, h4, h5, h6⟩ := hp
  rw [decodePointAt, seg_append_zero, seg_append_add, seg_append_add, seg_append_add,
    seg_append_add, seg_append_add]
  norm_num [encodePoint, seg_append_ge, seg_prefix_eq, List.append_assoc]
  exact ⟨bytesToNat_nb4 h1, bytesToNat_nb4 h2, bytesToNat_nb4 h3,
    bytesToNat_nb4 h4, bytesToNat_nb4 h5, bytesToNat_nb4 h6⟩

theorem readPoints_encoded :
    ∀ (pts : List PointRec) (pre : List ℕ), (∀ p ∈ pts, p.Valid) →
      readPoints (pre ++ (pts.map encodePoint).flatten) pre.length pts.length = some pts
  | [], pre, _ => by simp [readPoints]
  | p :: pts, pre, hval => by
    have hIH := readPoints_encoded pts (pre ++ encodePoint p)
      (fun q hq => hval q (List.mem_cons_of_mem _ hq))
    rw [List.length_append, length_encodePoint, List.append_assoc] at hIH
    rw [List.map_cons, List.flatten_cons, List.length_cons, readPoints,
      if_pos (by simp [length_flatten_encode])]
    rw [hIH, decodePointAt_encoded pre _ p (hval p (List.mem_cons_self p pts))]

theorem parseImuMsg_send (r : ImuRec) (h : r.Valid) : parseImuMsg (sendImuBytes r) = some r := by
  obtain ⟨f1, f2, f3, f4, f5, f6, f7, f8, f9, f10, f11, f12⟩ := r
  obtain ⟨h1, h2, h3, h4, h5, h6, h7, h8, h9, h10, h11, h12⟩ := h
  rw [parseImuMsg, length_sendImuBytes, if_neg (by omega)]
  norm_num [sendImuBytes, seg_append_ge, seg_prefix_eq, List.append_assoc]
  exact ⟨bytesToNat_nb8 h1, bytesToNat_nb4 h2, bytesToNat_nb4 h3, bytesToNat_nb4 h4,
    bytesToNat_nb4 h5, bytesToNat_nb4 h6, bytesToNat_nb4 h7, bytesToNat_nb4 h8,
    bytesToNat_nb4 h9, bytesToNat_nb4 h10, bytesToNat_nb4 h11, bytesToNat_nb4 h12⟩

theorem parseScanMsg_send (s : ScanRec) (h : s.Valid) : parseScanMsg (sendScanBytes s) = some s := by
  obtain ⟨st, i, pts⟩ := s
  obtain ⟨h1, h2, h3, h4⟩ := h
  have hrp : readPoints (sendScanBytes ⟨st, i, pts⟩) 24 pts.length = some pts := by
    have hmain := readPoints_encoded pts
      (natToBytes 4 102 ++ (natToBytes 4 (16 + 24 * pts.length) ++
        (natToBytes 8 st ++ (natToBytes 4 i ++ natToBytes 4 pts.length)))) h4
    simp only [List.append_assoc] at hmain
    simpa [sendScanBytes, List.append_assoc] using hmain
  have hvc : seg (sendScanBytes ⟨st, i, pts⟩) 20 4 = natToBytes 4 pts.length := by
    norm_num [sendScanBytes, seg_append_ge, seg_prefix_eq, List.append_assoc]
  have hst : bytesToNat (seg (sendScanBytes ⟨st, i, pts⟩) 8 8) = st := by
    norm_num [sendScanBytes, seg_append_ge, seg_prefix_eq, List.append_assoc]
    exact bytesToNat_nb8 h1
  have hid : bytesToNat (seg (sendScanBytes ⟨st, i, pts⟩) 16 4) = i := by
    norm_num [sendScanBytes, seg_append_ge, seg_prefix_eq, List.append_assoc]
    exact bytesToNat_nb4 h2
  rw [parseScanMsg, length_sendScanBytes, if_neg (by omega), hvc, bytesToNat_nb4 h3, hrp,
    hst, hid]

theorem decodeMsg_sendScan (s : ScanRec) (h : s.Valid) :
    decodeMsg (sendScanBytes s) = some (Sum.inl s) := by
  have ht : bytesToNat (seg (sendScanBytes s) 0 4) = 102 := by
    obtain ⟨st, i, pts⟩ := s
    norm_num [sendScanBytes, seg_prefix_eq, List.append_assoc]
    exact bytesToNat_nb4 (by norm_num)
  rw [decodeMsg, if_neg (by rw [length_sendScanBytes]; omega)]
  simp [ht, parseScanMsg_send s h]

theorem decodeMsg_sendImu (r : ImuRec) (h : r.Valid) :
    decodeMsg (sendImuBytes r) = some (Sum.inr r) := by
  have ht : bytesToNat (seg (sendImuBytes r) 0 4) = 101 := by
    obtain ⟨f1, f2, f3, f4, f5, f6, f7, f8, f9, f10, f11, f12⟩ := r
    norm_num [sendImuBytes, seg_prefix_eq, List.append_assoc]
    exact bytesToNat_nb4 (by norm_num)
  rw [decodeMsg, if_neg (by rw [length_sendImuBytes]; omega)]
  simp [ht, parseImuMsg_send r h]

theorem readPoints_isSome (B : List ℕ) :
    ∀ (k a : ℕ), (readPoints B a k).isSome ↔ (k = 0 ∨ a + 24 * k ≤ B.length)
  | 0, a => by simp [readPoints]
  | k + 1, a => by
    rw [readPoints]
    by_cases h : a + 24 ≤ B.length
    · rw [if_pos h]
      have hrec := readPoints_isSome B k (a + 24)
      cases hk : readPoints B (a + 24) k with
      | none => simp [hk] at hrec ⊢; omega
      | some ps => simp [hk] at hrec ⊢; omega
    · rw [if_neg h]
      simp
      omega

theorem parseScanMsg_isSome (B : List ℕ) :
    (parseScanMsg B).isSome ↔ 24 + 24 * bytesToNat (seg B 20 4) ≤ B.length := by
  rw [parseScanMsg]
  by_cases h : B.length < 24
  · rw [if_pos h]
    constructor
    · simp
    · intro hle; omega
  · rw [if_neg h]
    have hr := readPoints_isSome B (bytesToNat (seg B 20 4)) 24
    cases hk : readPoints B 24 (bytesToNat (seg B 20 4)) with
    | none => simp [hk] at hr ⊢; omega
    | some ps => simp [hk] at hr ⊢; omega

theorem parseImuMsg_isSome (B : List ℕ) : (parseImuMsg B).isSome ↔ 60 ≤ B.length := by
  rw [parseImuMsg]
  by_cases h : B.length < 60
  · rw [if_pos h]; simp; omega
  · rw [if_neg h]; simp; omega

theorem seg_eq_of_drop8 {B₁ B₂ : List ℕ} (h : B₁.drop 8 = B₂.drop 8) {off : ℕ}
    (hoff : 8 ≤ off) (l : ℕ) : seg B₁ off l = seg B₂ off l := by
  obtain ⟨m, rfl⟩ := Nat.exists_eq_add_of_le hoff
  rw [seg, seg, ← List.drop_drop, ← List.drop_drop, h]

theorem decodePointAt_congr {B₁ B₂ : List ℕ} (h : B₁.drop 8 = B₂.drop 8) {a : ℕ}
    (ha : 8 ≤ a) : decodePointAt B₁ a = decodePointAt B₂ a := by
  rw [decodePointAt, decodePointAt,
    seg_eq_of_drop8 h ha, seg_eq_of_drop8 h (by omega), seg_eq_of_drop8 h (by omega),
    seg_eq_of_drop8 h (by omega), seg_eq_of_drop8 h (by omega), seg_eq_of_drop8 h (by omega)]

theorem readPoints_congr {B₁ B₂ : List ℕ} (hlen : B₁.length = B₂.length)
    (h : B₁.drop 8 = B₂.drop 8) :
    ∀ (k a : ℕ), 8 ≤ a → readPoints B₁ a k = readPoints B₂ a k
  | 0, a, _ => rfl
  | k + 1, a, ha => by
    rw [readPoints, readPoints, hlen,
      readPoints_congr hlen h k (a + 24) (by omega), decodePointAt_congr h ha]

theorem parseScanMsg_congr {B₁ B₂ : List ℕ} (hlen : B₁.length = B₂.length)
    (h : B₁.drop 8 = B₂.drop 8) : parseScanMsg B₁ = parseScanMsg B₂ := by
  rw [parseScanMsg, parseScanMsg, hlen, seg_eq_of_drop8 h (by omega),
    seg_eq_of_drop8 h (by omega), seg_eq_of_drop8 h (by omega),
    readPoints_congr hlen h _ 24 (by omega)]

theorem parseImuMsg_congr {B₁ B₂ : List ℕ} (hlen : B₁.length = B₂.length)
    (h : B₁.drop 8 = B₂.drop 8) : parseImuMsg B₁ = parseImuMsg B₂ := by
  rw [parseImuMsg, parseImuMsg, hlen,
    seg_eq_of_drop8 h (by omega), seg_eq_of_drop8 h (by omega), seg_eq_of_drop8 h (by omega),
    seg_eq_of_drop8 h (by omega), seg_eq_of_drop8 h (by omega), seg_eq_of_drop8 h (by omega),
    seg_eq_of_drop8 h (by omega), seg_eq_of_drop8 h (by omega), seg_eq_of_drop8 h (by omega),
    seg_eq_of_drop8 h (by omega), seg_eq_of_drop8 h (by omega), seg_eq_of_drop8 h (by omega)]

theorem seg04_eq_of_take4 {B₁ B₂ : List ℕ} (h : B₁.take 4 = B₂.take 4) :
    seg B₁ 0 4 = seg B₂ 0 4 := by
  rw [seg, seg, List.drop_zero, List.drop_zero, h]

theorem receiverStep_congr {B₁ B₂ : List ℕ} (hlen : B₁.length = B₂.length)
    (ht : B₁.take 4 = B₂.take 4) (h : B₁.drop 8 = B₂.drop 8) (s : RecvState) :
    receiverStep s B₁ = receiverStep s B₂ := by
  rw [receiverStep, receiverStep, hlen, seg04_eq_of_take4 ht,
    parseImuMsg_congr hlen h, parseScanMsg_congr hlen h]

/-! ## Correctness of the flood-fill clustering -/

theorem close_symm (p q : Point) : close p q = close q p := by
  have h : calculate_distance_sq p q = calculate_distance_sq q p := by
    rw [calculate_distance_sq, calculate_distance_sq]; ring
  rw [close, close, h]

theorem close_self (p : Point) : close p p = true := by
  have h : calculate_distance_sq p p = 0 := by rw [calculate_distance_sq]; ring
  rw [close, h, CLUSTERING_DISTANCE]
  norm_num

theorem Adj.symm {ps : List Point} {i j : ℕ} (h : Adj ps i j) : Adj ps j i :=
  ⟨h.2.1, h.1, by rw [close_symm]; exact h.2.2⟩

theorem reaches_symm {ps : List Point} {i j : ℕ} (h : Reaches ps i j) : Reaches ps j i := by
  induction h with
  | refl => exact Relation.ReflTransGen.refl
  | tail _ hadj ih => exact Relation.ReflTransGen.head hadj.symm ih

theorem reaches_mem_closed {ps : List Point} {u : Finset ℕ}
    (hu : ∀ c ∈ u, ∀ j, j < ps.length → close (pt ps c) (pt ps j) = true → j ∈ u)
    {x j : ℕ} (hx : x ∈ u) (h : Reaches ps x j) : j ∈ u := by
  induction h with
  | refl => exact hx
  | tail _ hadj ih => exact hu _ ih _ hadj.2.1 hadj.2.2

theorem mem_newNeighbors {ps : List Point} {used : Finset ℕ} {c j : ℕ} :
    j ∈ newNeighbors ps used c ↔
      j < ps.length ∧ j ∉ used ∧ close (pt ps c) (pt ps j) = true := by
  simp [newNeighbors, List.mem_filter, and_assoc]

theorem nodup_newNeighbors (ps : List Point) (used : Finset ℕ) (c : ℕ) :
    (newNeighbors ps used c).Nodup :=
  (List.nodup_range _).filter _

theorem bfsAux_spec (ps : List Point) (s : ℕ) (U₀ : Finset ℕ) :
    ∀ (fuel : ℕ) (q acc done : List ℕ) (used U : Finset ℕ) (A : List ℕ),
    bfsAux ps fuel used q acc = (U, A) →
    2 * ((Finset.range ps.length \ used).card) + q.length ≤ fuel →
    used = U₀ ∪ acc.toFinset →
    acc = done ++ q →
    (∀ c ∈ done, ∀ j, j < ps.length → close (pt ps c) (pt ps j) = true → j ∈ used) →
    acc.Nodup →
    (∀ x ∈ acc, x < ps.length) →
    (∀ x ∈ acc, Reaches ps s x) →
    (U = U₀ ∪ A.toFinset ∧
     (∀ c ∈ A, ∀ j, j < ps.length → close (pt ps c) (pt ps j) = true → j ∈ U) ∧
     A.Nodup ∧ (∀ x ∈ A, x < ps.length) ∧ (∀ x ∈ A, Reaches ps s x) ∧
     (∀ x ∈ acc, x ∈ A) ∧ (∀ x ∈ A, x ∈ acc ∨ x ∉ U₀)) := by
  intro fuel
  induction fuel with
  | zero =>
    intro q acc done used U A hrun hfuel hused hsplit hdone hnd hlt hreach
    cases q with
    | nil =>
      rw [bfsAux] at hrun
      obtain ⟨rfl, rfl⟩ := Prod.mk.injEq .. ▸ hrun
      rw [List.append_nil] at hsplit
      subst hsplit
      exact ⟨hused, hdone, hnd, hlt, hreach, fun x hx => hx, fun x hx => Or.inl hx⟩
    | cons c rest =>
      exfalso
      simp only [List.length_cons] at hfuel
      omega
  | succ f ih =>
    intro q acc done used U A hrun hfuel hused hsplit hdone hnd hlt hreach
    cases q with
    | nil =>
      rw [bfsAux] at hrun
      obtain ⟨rfl, rfl⟩ := Prod.mk.injEq .. ▸ hrun
      rw [List.append_nil] at hsplit
      subst hsplit
      exact ⟨hused, hdone, hnd, hlt, hreach, fun x hx => hx, fun x hx => Or.inl hx⟩
    | cons c rest =>
      rw [bfsAux] at hrun
      have hcacc : c ∈ acc := by rw [hsplit]; exact List.mem_append_right _ (List.mem_cons_self c rest)
      have hclt : c < ps.length := hlt c hcacc
      have hndN := nodup_newNeighbors ps used c
      have hSsub : (newNeighbors ps used c).toFinset ⊆ Finset.range ps.length \ used := by
        intro j hj
        rw [List.mem_toFinset, mem_newNeighbors] at hj
        rw [Finset.mem_sdiff, Finset.mem_range]
        exact ⟨hj.1, hj.2.1⟩
      have hcard : (Finset.range ps.length \ (used ∪ (newNeighbors ps used c).toFinset)).card +
          (newNeighbors ps used c).length = (Finset.range ps.length \ used).card := by
        have hsd : Finset.range ps.length \ (used ∪ (newNeighbors ps used c).toFinset) =
            (Finset.range ps.length \ used) \ (newNeighbors ps used c).toFinset := by
          ext a
          simp only [Finset.mem_sdiff, Finset.mem_union]
          tauto
        rw [hsd, Finset.card_sdiff hSsub, List.toFinset_card_of_nodup hndN]
        have hle := Finset.card_le_card hSsub
        rw [List.toFinset_card_of_nodup hndN] at hle
        omega
      have hfresh : ∀ x ∈ newNeighbors ps used c, x ∉ used := by
        intro x hx
        exact (mem_newNeighbors.mp hx).2.1
      have hUsub : U₀ ⊆ used := by rw [hused]; exact Finset.subset_union_left
      refine ?_
      have hmain := ih (rest ++ newNeighbors ps used c) (acc ++ newNeighbors ps used c)
        (done ++ [c]) (used ∪ (newNeighbors ps used c).toFinset) U A hrun ?hfuel ?hused ?hsplit
        ?hdone ?hnd ?hlt ?hreach
      case hfuel =>
        rw [List.length_append]
        simp only [List.length_cons] at hfuel
        omega
      case hused =>
        rw [hused, List.toFinset_append, Finset.union_assoc]
      case hsplit =>
        rw [hsplit]
        simp
      case hdone =>
        intro c' hc' j hj hclose
        rcases List.mem_append.mp hc' with hc'd | hc'c
        · exact Finset.mem_union_left _ (hdone c' hc'd j hj hclose)
        · have hc'eq : c' = c := by simpa using hc'c
          subst hc'eq
          by_cases hju : j ∈ used
          · exact Finset.mem_union_left _ hju
          · refine Finset.mem_union_right _ ?_
            rw [List.mem_toFinset, mem_newNeighbors]
            exact ⟨hj, hju, hclose⟩
      case hnd =>
        refine hnd.append hndN ?_
        intro a ha hmemN
        have haU : a ∈ used := by
          rw [hused]
          exact Finset.mem_union_right _ (List.mem_toFinset.mpr ha)
        exact hfresh a hmemN haU
      case hlt =>
        intro x hx
        rcases List.mem_append.mp hx with hx | hx
        · exact hlt x hx
        · exact (mem_newNeighbors.mp hx).1
      case hreach =>
        intro x hx
        rcases List.mem_append.mp hx with hx | hx
        · exact hreach x hx
        · refine Relation.ReflTransGen.tail (hreach c hcacc) ?_
          exact ⟨hclt, (mem_newNeighbors.mp hx).1, (mem_newNeighbors.mp hx).2.2⟩
      obtain ⟨cU, cClosed, cNd, cLt, cReach, cAccSub, cFresh⟩ := hmain
      refine ⟨cU, cClosed, cNd, cLt, cReach, ?_, ?_⟩
      · intro x hx
        exact cAccSub x (List.mem_append_left _ hx)
      · intro x hx
        rcases cFresh x hx with hxa | hxU
        · rcases List.mem_append.mp hxa with hxa | hxN
          · exact Or.inl hxa
          · exact Or.inr (fun hxU0 => hfresh x hxN (hUsub hxU0))
        · exact Or.inr hxU

theorem clusterLoop_spec (ps : List Point) :
    ∀ (idxs : List ℕ) (used : Finset ℕ),
    used ⊆ Finset.range ps.length →
    (∀ c ∈ used, ∀ j, j < ps.length → close (pt ps c) (pt ps j) = true → j ∈ used) →
    (∀ i ∈ idxs, i < ps.length) →
    ((∀ cl ∈ clusterLoop ps used idxs, cl ≠ [] ∧ cl.Nodup ∧
        (∀ x ∈ cl, x < ps.length) ∧ (∀ x ∈ cl, x ∉ used)) ∧
     List.Pairwise (fun a b => ∀ x ∈ a, x ∉ b) (clusterLoop ps used idxs) ∧
     (∀ i ∈ idxs, i ∉ used → ∃ cl ∈ clusterLoop ps used idxs, i ∈ cl) ∧
     (∀ cl ∈ clusterLoop ps used idxs, ∀ x ∈ cl, ∀ y ∈ cl, Reaches ps x y) ∧
     (∀ cl ∈ clusterLoop ps used idxs, ∀ x ∈ cl, ∀ j, j < ps.length → Reaches ps x j → j ∈ cl))
  | [], used => by
    intro _ _ _
    rw [clusterLoop]
    refine ⟨by simp, by simp, by simp, by simp, by simp⟩
  | i :: rest, used => by
    intro hrange hclosed hidx
    rw [clusterLoop]
    by_cases hi : i ∈ used
    · rw [if_pos hi]
      obtain ⟨dNice, dPW, dCov, dFwd, dBwd⟩ :=
        clusterLoop_spec ps rest used hrange hclosed (fun x hx => hidx x (List.mem_cons_of_mem _ hx))
      refine ⟨dNice, dPW, ?_, dFwd, dBwd⟩
      intro i₀ hmem hfr
      rcases List.mem_cons.mp hmem with rfl | hmem
      · exact absurd hi hfr
      · exact dCov i₀ hmem hfr
    · rw [if_neg hi]
      set r := bfsAux ps (2 * ps.length + 1) (insert i used) [i] [i] with hr
      have hrun : bfsAux ps (2 * ps.length + 1) (insert i used) [i] [i] = (r.1, r.2) := by
        rw [← hr]
      have hfuel1 : 2 * ((Finset.range ps.length \ insert i used).card) +
          ([i] : List ℕ).length ≤ 2 * ps.length + 1 := by
        have hle : (Finset.range ps.length \ insert i used).card ≤ ps.length := by
          calc (Finset.range ps.length \ insert i used).card
              ≤ (Finset.range ps.length).card := Finset.card_le_card (Finset.sdiff_subset)
            _ = ps.length := Finset.card_range _
        simp only [List.length_cons, List.length_nil]
        omega
      have hused1 : insert i used = used ∪ ([i] : List ℕ).toFinset := by
        simp [Finset.insert_eq, Finset.union_comm]
      have hdone1 : ∀ c ∈ ([] : List ℕ), ∀ j, j < ps.length →
          close (pt ps c) (pt ps j) = true → j ∈ insert i used := by
        intro c hc; simp at hc
      have hlt1 : ∀ x ∈ ([i] : List ℕ), x < ps.length := by
        intro x hx
        rw [List.mem_singleton] at hx
        subst hx
        exact hidx x (List.mem_cons_self x rest)
      have hreach1 : ∀ x ∈ ([i] : List ℕ), Reaches ps i x := by
        intro x hx
        rw [List.mem_singleton] at hx
        subst hx
        exact Relation.ReflTransGen.refl
      have hspec := bfsAux_spec ps i used (2 * ps.length + 1) [i] [i] []
        (insert i used) r.1 r.2 hrun hfuel1 hused1 rfl hdone1 (by simp) hlt1 hreach1
      obtain ⟨cU, cClosed, cNd, cLt, cReach, cAccSub, cFresh⟩ := hspec
      have hiA : i ∈ r.2 := cAccSub i (List.mem_singleton.mpr rfl)
      have hAfresh : ∀ x ∈ r.2, x ∉ used := by
        intro x hx
        rcases cFresh x hx with hxi | hxU
        · rw [List.mem_singleton] at hxi; subst hxi; exact hi
        · exact hxU
      have hclosed1 : ∀ c ∈ r.1, ∀ j, j < ps.length →
          close (pt ps c) (pt ps j) = true → j ∈ r.1 := by
        intro c hc j hj hcl
        rw [cU] at hc
        rcases Finset.mem_union.mp hc with hc | hc
        · rw [cU]; exact Finset.mem_union_left _ (hclosed c hc j hj hcl)
        · exact cClosed c (List.mem_toFinset.mp hc) j hj hcl
      have hrange1 : r.1 ⊆ Finset.range ps.length := by
        rw [cU]
        refine Finset.union_subset hrange ?_
        intro x hx
        exact Finset.mem_range.mpr (cLt x (List.mem_toFinset.mp hx))
      obtain ⟨dNice, dPW, dCov, dFwd, dBwd⟩ :=
        clusterLoop_spec ps rest r.1 hrange1 hclosed1
          (fun x hx => hidx x (List.mem_cons_of_mem _ hx))
      have husedr1 : used ⊆ r.1 := by rw [cU]; exact Finset.subset_union_left
      have hAr1 : ∀ x ∈ r.2, x ∈ r.1 := by
        intro x hx
        rw [cU]
        exact Finset.mem_union_right _ (List.mem_toFinset.mpr hx)
      refine ⟨?_, ?_, ?_, ?_, ?_⟩
      · intro cl hcl
        rcases List.mem_cons.mp hcl with rfl | hcl
        · exact ⟨List.ne_nil_of_mem hiA, cNd, cLt, hAfresh⟩
        · obtain ⟨hne, hnd, hlt, hfr⟩ := dNice cl hcl
          exact ⟨hne, hnd, hlt, fun x hx hxu => hfr x hx (husedr1 hxu)⟩
      · rw [List.pairwise_cons]
        refine ⟨?_, dPW⟩
        intro cl' hcl' x hx hxcl'
        exact (dNice cl' hcl').2.2.2 x hxcl' (hAr1 x hx)
      · intro i₀ hmem hfr
        rcases List.mem_cons.mp hmem with rfl | hmem
        · exact ⟨r.2, List.mem_cons_self _ _, hiA⟩
        · by_cases hir : i₀ ∈ r.1
          · rw [cU] at hir
            rcases Finset.mem_union.mp hir with hir | hir
            · exact absurd hir hfr
            · exact ⟨r.2, List.mem_cons_self _ _, List.mem_toFinset.mp hir⟩
          · obtain ⟨cl, hcl, hicl⟩ := dCov i₀ hmem hir
            exact ⟨cl, List.mem_cons_of_mem _ hcl, hicl⟩
      · intro cl hcl x hx y hy
        rcases List.mem_cons.mp hcl with rfl | hcl
        · exact (reaches_symm (cReach x hx)).trans (cReach y hy)
        · exact dFwd cl hcl x hx y hy
      · intro cl hcl x hx j hj hreach
        rcases List.mem_cons.mp hcl with rfl | hcl
        · have hjr1 : j ∈ r.1 := reaches_mem_closed hclosed1 (hAr1 x hx) hreach
          rw [cU] at hjr1
          rcases Finset.mem_union.mp hjr1 with hju | hjA
          · exfalso
            have hxu : x ∈ used :=
              reaches_mem_closed hclosed hju (reaches_symm hreach)
            exact hAfresh x hx hxu
          · exact List.mem_toFinset.mp hjA
        · exact dBwd cl hcl x hx j hj hreach

theorem pt_mem {ps : List Point} {i : ℕ} (h : i < ps.length) : pt ps i ∈ ps := by
  rw [pt, List.getD_eq_getElem _ _ h]
  exact List.getElem_mem h

theorem closeChain_of_reaches {ps : List Point} {i j : ℕ} (h : Reaches ps i j) :
    closeChain ps (pt ps i) (pt ps j) := by
  induction h with
  | refl => exact Relation.ReflTransGen.refl
  | tail _ hadj ih =>
    exact Relation.ReflTransGen.tail ih ⟨pt_mem hadj.1, pt_mem hadj.2.1, hadj.2.2⟩

theorem reaches_of_closeChain {ps : List Point} {p q : Point} (h : closeChain ps p q) :
    ∀ i j, i < ps.length → j < ps.length → pt ps i = p → pt ps j = q → Reaches ps i j := by
  induction h using Relation.ReflTransGen.head_induction_on with
  | refl =>
    intro i j hi hj hpi hpj
    refine Relation.ReflTransGen.single ⟨hi, hj, ?_⟩
    rw [hpi, hpj, close_self]
  | head step _ ih =>
    intro i j hi hj hpi hpj
    obtain ⟨_, hc, hcl⟩ := step
    obtain ⟨ic, hic, hpc⟩ := List.mem_iff_getElem.mp hc
    have hptc : pt ps ic = ps[ic] := by rw [pt, List.getD_eq_getElem _ _ hic]
    rw [hpc] at hptc
    refine Relation.ReflTransGen.head ⟨hi, hic, ?_⟩ (ih ic j hic hj hptc hpj)
    rw [hpi, hptc]
    exact hcl

theorem map_pt_range (ps : List Point) : (List.range ps.length).map (pt ps) = ps := by
  apply List.ext_getElem
  · simp
  · intro i h1 h2
    simp only [List.getElem_map, List.getElem_range]
    rw [pt, List.getD_eq_getElem _ _ h2]

theorem clusterIdx_spec (ps : List Point) :
    (∀ cl ∈ clusterIdx ps, cl ≠ [] ∧ cl.Nodup ∧ (∀ x ∈ cl, x < ps.length)) ∧
    List.Pairwise (fun a b => ∀ x ∈ a, x ∉ b) (clusterIdx ps) ∧
    (∀ i, i < ps.length → ∃ cl ∈ clusterIdx ps, i ∈ cl) ∧
    (∀ cl ∈ clusterIdx ps, ∀ x ∈ cl, ∀ y ∈ cl, Reaches ps x y) ∧
    (∀ cl ∈ clusterIdx ps, ∀ x ∈ cl, ∀ j, j < ps.length → Reaches ps x j → j ∈ cl) := by
  obtain ⟨dNice, dPW, dCov, dFwd, dBwd⟩ :=
    clusterLoop_spec ps (List.range ps.length) ∅ (by simp)
      (by intro c hc; simp at hc) (by intro x hx; exact List.mem_range.mp hx)
  exact ⟨fun cl hcl => ⟨(dNice cl hcl).1, (dNice cl hcl).2.1, (dNice cl hcl).2.2.1⟩,
    dPW,
    fun i hi => dCov i (List.mem_range.mpr hi) (by simp),
    dFwd, dBwd⟩

theorem clusterIdx_flatten_perm (ps : List Point) :
    (clusterIdx ps).flatten.Perm (List.range ps.length) := by
  obtain ⟨hNice, hPW, hCov, _, _⟩ := clusterIdx_spec ps
  have hnd : (clusterIdx ps).flatten.Nodup := by
    rw [List.nodup_flatten]
    refine ⟨fun l hl => (hNice l hl).2.1, ?_⟩
    refine hPW.imp ?_
    intro a b hab x hxa hxb
    exact hab x hxa hxb
  rw [List.perm_ext_iff_of_nodup hnd (List.nodup_range _)]
  intro a
  rw [List.mem_flatten, List.mem_range]
  constructor
  · rintro ⟨cl, hcl, hacl⟩
    exact (hNice cl hcl).2.2 a hacl
  · intro ha
    exact hCov a ha

theorem simple_clustering_flatten_perm (ps : List Point) :
    (simple_clustering ps).flatten.Perm ps := by
  rw [simple_clustering, ← List.map_flatten]
  have h := (clusterIdx_flatten_perm ps).map (pt ps)
  rw [map_pt_range] at h
  exact h

/-! ## Size and recorder helper lemmas -/

theorem self_le_foldl_max : ∀ (xs : List ℚ) (x : ℚ), x ≤ xs.foldl max x
  | [], x => le_refl x
  | y :: xs, x => le_trans (le_max_left x y) (self_le_foldl_max xs (max x y))

theorem foldl_min_le_self : ∀ (xs : List ℚ) (x : ℚ), xs.foldl min x ≤ x
  | [], x => le_refl x
  | y :: xs, x => le_trans (foldl_min_le_self xs (min x y)) (min_le_left x y)

theorem minOf_le_maxOf {l : List ℚ} (h : l ≠ []) : minOf l ≤ maxOf l := by
  cases l with
  | nil => exact absurd rfl h
  | cons x xs =>
    rw [minOf, maxOf]
    exact le_trans (foldl_min_le_self xs x) (self_le_foldl_max xs x)

theorem sizeX_nonneg {cl : List Point} (h : cl ≠ []) : 0 ≤ sizeX cl := by
  rw [sizeX, sub_nonneg]
  refine minOf_le_maxOf ?_
  intro hc
  exact h (List.map_eq_nil_iff.mp hc)

theorem sizeY_nonneg {cl : List Point} (h : cl ≠ []) : 0 ≤ sizeY cl := by
  rw [sizeY, sub_nonneg]
  refine minOf_le_maxOf ?_
  intro hc
  exact h (List.map_eq_nil_iff.mp hc)

theorem recordStep_scanCount {s s' : RecState} {B : List ℕ}
    (h : recordStep s B = Except.ok s') : s'.scanCount ≤ s.scanCount + 1 := by
  rw [recordStep] at h
  by_cases h4 : B.length < 4
  · rw [if_pos h4] at h; cases h
  · rw [if_neg h4] at h
    by_cases h101 : bytesToNat (seg B 0 4) = 101
    · simp only [h101, if_pos] at h
      cases hp : parseImuMsg B with
      | none => rw [hp] at h; cases h
      | some r =>
        rw [hp] at h
        cases h
        simp
    · rw [if_neg h101] at h
      by_cases h102 : bytesToNat (seg B 0 4) = 102
      · rw [if_pos h102] at h
        cases hp : parseScanMsg B with
        | none => rw [hp] at h; cases h
        | some r =>
          rw [hp] at h
          cases h
          simp
      · rw [if_neg h102] at h
        cases h
        omega

theorem recordStep_goodScan {s : RecState} {B : List ℕ}
    (h102 : bytesToNat (seg B 0 4) = 102) (hlen : 4 ≤ B.length)
    (hsome : (parseScanMsg B).isSome) :
    ∃ s', recordStep s B = Except.ok s' ∧ s'.scanCount = s.scanCount + 1 := by
  obtain ⟨r, hr⟩ := Option.isSome_iff_exists.mp hsome
  rw [recordStep, if_neg (by omega), h102]
  norm_num
  rw [hr]
  exact ⟨_, rfl, rfl⟩

/-! ## Claim theorems -/

/-- C1: any two points placed in the same cluster by `simple_clustering` are
joined by a chain of input points whose consecutive Euclidean distances are
below `DetectionConfig.CLUSTERING_DISTANCE`, and no two points placed in
distinct clusters are joined by such a chain through the full input set. -/
theorem C1_cluster_connectivity (ps : List Point) :
    (∀ cl ∈ simple_clustering ps, ∀ p ∈ cl, ∀ q ∈ cl, closeChain ps p q) ∧
    (∀ cl ∈ simple_clustering ps, ∀ cl' ∈ simple_clustering ps, cl ≠ cl' →
      ∀ p ∈ cl, ∀ q ∈ cl', ¬ closeChain ps p q) := by
  obtain ⟨hNice, hPW, hCov, hFwd, hBwd⟩ := clusterIdx_spec ps
  constructor
  · intro cl hcl p hp q hq
    rw [simple_clustering] at hcl
    obtain ⟨icl, hicl, rfl⟩ := List.mem_map.mp hcl
    obtain ⟨i, hi, rfl⟩ := List.mem_map.mp hp
    obtain ⟨j, hj, rfl⟩ := List.mem_map.mp hq
    exact closeChain_of_reaches (hFwd icl hicl i hi j hj)
  · intro cl hcl cl' hcl' hne p hp q hq hchain
    rw [simple_clustering] at hcl hcl'
    obtain ⟨icl, hicl, rfl⟩ := List.mem_map.mp hcl
    obtain ⟨icl', hicl', rfl⟩ := List.mem_map.mp hcl'
    obtain ⟨i, hi, hpi⟩ := List.mem_map.mp hp
    obtain ⟨j, hj, hqj⟩ := List.mem_map.mp hq
    have hilt : i < ps.length := (hNice _ hicl).2.2 i hi
    have hjlt : j < ps.length := (hNice _ hicl').2.2 j hj
    have hreach : Reaches ps i j := reaches_of_closeChain hchain i j hilt hjlt hpi hqj
    have hjk : j ∈ icl := hBwd _ hicl i hi j hjlt hreach
    have hiclne : icl ≠ icl' := fun he => hne (by rw [he])
    have hsymm : Symmetric (fun (a b : List ℕ) => ∀ x ∈ a, x ∉ b) := by
      intro a b hab x hxb hxa
      exact hab x hxa hxb
    exact hPW.forall hsymm hicl hicl' hiclne j hjk hj

/-- Witness for C1 at spec scenario 7: the two nearby points end up chained,
the far point does not. -/
theorem C1_cluster_connectivity_witness :
    closeChain scenarioPoints ((0:ℚ), (0:ℚ), (1:ℚ)) ((1/10 : ℚ), (0:ℚ), (1:ℚ)) ∧
    ¬ closeChain scenarioPoints ((0:ℚ), (0:ℚ), (1:ℚ)) ((5:ℚ), (5:ℚ), (1:ℚ)) := by
  constructor
  · exact (C1_cluster_connectivity scenarioPoints).1
      [((0:ℚ), (0:ℚ), (1:ℚ)), ((1/10 : ℚ), (0:ℚ), (1:ℚ))] (by with_unfolding_all decide)
      _ (by with_unfolding_all decide) _ (by with_unfolding_all decide)
  · exact (C1_cluster_connectivity scenarioPoints).2
      [((0:ℚ), (0:ℚ), (1:ℚ)), ((1/10 : ℚ), (0:ℚ), (1:ℚ))] (by with_unfolding_all decide)
      [((5:ℚ), (5:ℚ), (1:ℚ))] (by with_unfolding_all decide)
      (by with_unfolding_all decide)
      _ (by with_unfolding_all decide) _ (by with_unfolding_all decide)

/-- C2: the clusters of one run are non-empty; at the index level they are
pairwise disjoint and enumerate every input position exactly once; the
flattened point clusters are a permutation of the input list; and the input
that `detect_objects` feeds to the clustering is exactly the height-filtered
point list. -/
theorem C2_cluster_partition (ps : List Point) :
    (∀ cl ∈ simple_clustering ps, cl ≠ []) ∧
    List.Pairwise (fun a b => ∀ i ∈ a, i ∉ b) (clusterIdx ps) ∧
    (clusterIdx ps).flatten.Perm (List.range ps.length) ∧
    simple_clustering ps = (clusterIdx ps).map (fun cl => cl.map (pt ps)) ∧
    (simple_clustering ps).flatten.Perm ps ∧
    heightFiltered ps = ps.filter
      (fun p => decide (detector_min_height ≤ p.2.2 ∧ p.2.2 ≤ detector_max_height)) := by
  obtain ⟨hNice, hPW, hCov, hFwd, hBwd⟩ := clusterIdx_spec ps
  refine ⟨?_, hPW, clusterIdx_flatten_perm ps, rfl, simple_clustering_flatten_perm ps, ?_⟩
  · intro cl hcl
    rw [simple_clustering] at hcl
    obtain ⟨icl, hicl, rfl⟩ := List.mem_map.mp hcl
    intro hnil
    exact (hNice icl hicl).1 (List.map_eq_nil_iff.mp hnil)
  · rw [heightFiltered]
    apply List.filter_congr
    intro p _
    simp

/-- Witness for C2 at spec scenario 7. -/
theorem C2_cluster_partition_witness :
    [((0:ℚ), (0:ℚ), (1:ℚ)), ((1/10 : ℚ), (0:ℚ), (1:ℚ))] ≠ ([] : List Point) ∧
    (simple_clustering scenarioPoints).flatten.Perm scenarioPoints :=
  ⟨(C2_cluster_partition scenarioPoints).1 _ (by with_unfolding_all decide),
   (C2_cluster_partition scenarioPoints).2.2.2.2.1⟩

/-- C3 counterexample: the claim describes the IMU message as carrying a
48-byte payload, but the field layout `f64 + u32 + 10×f32` occupies 52 bytes;
a type-101 datagram with declared length 48 and a 48-byte payload does not
decode at all (56 bytes < the 60 the receiver unpacks). -/
theorem C3_roundtrip_counterexample : decodeMsg imu48Bytes = none := by decide

/-- C3 (amended, 52-byte IMU payload): for every well-formed message of
either kind — produced by the publisher's pack routines, hence with
`declared_length` equal to the actual payload length (52 for IMU,
`16 + 24 * valid_count` for scans, including `valid_count = 0`) — decoding
with the receiver's parse routines succeeds and re-encoding the decoded
record with the publisher's pack routines reproduces the bytes exactly. -/
theorem C3_roundtrip (B : List ℕ) (h : WellFormedMsg B) :
    ∃ m : Msg, decodeMsg B = some m ∧ encodeMsg m = B := by
  rcases h with ⟨s, hv, rfl⟩ | ⟨r, hv, rfl⟩
  · exact ⟨Sum.inl s, decodeMsg_sendScan s hv, rfl⟩
  · exact ⟨Sum.inr r, decodeMsg_sendImu r hv, rfl⟩

/-- Witness for C3 on a zero-point scan datagram. -/
theorem C3_roundtrip_witness :
    ∃ m : Msg, decodeMsg goodScanBytes = some m ∧ encodeMsg m = goodScanBytes :=
  C3_roundtrip goodScanBytes (Or.inl ⟨emptyScan, by decide, rfl⟩)

/-- C4 counterexample: in the recorder's receive loop (`record`), a scan
datagram whose payload is too short for its `valid_count` raises out of the
message handler and terminates recording — a later well-formed datagram is
never processed, so the loop does not survive every decode failure. -/
theorem C4_decode_failure_counterexample :
    recordStep initRecState truncScanBytes = Except.error () ∧
    recordRun 1000 60 0 initRecState [((0:ℚ), truncScanBytes), ((1:ℚ), goodScanBytes)] =
      initRecState := by
  constructor
  · decide
  · with_unfolding_all decide

/-- C4 (amended): in the receiver's `_data_receiving_loop`, a datagram with
an unrecognized message type or with insufficient bytes for its field layout
is swallowed — the loop continues (`Except.ok`) and the cached
`latest_scan` / `latest_imu` / point cloud are unchanged.  In the recorder's
`record` loop only the unknown-type failure is swallowed. -/
theorem C4_decode_failure_isolated :
    (∀ (s : RecvState) (B : List ℕ), 4 ≤ B.length →
      bytesToNat (seg B 0 4) ≠ 101 → bytesToNat (seg B 0 4) ≠ 102 →
      receiverStep s B = Except.ok s) ∧
    (∀ (s : RecvState) (B : List ℕ), 4 ≤ B.length →
      bytesToNat (seg B 0 4) = 102 → parseScanMsg B = none →
      receiverStep s B = Except.ok s) ∧
    (∀ (s : RecvState) (B : List ℕ), 4 ≤ B.length →
      bytesToNat (seg B 0 4) = 101 → parseImuMsg B = none →
      receiverStep s B = Except.ok s) ∧
    (∀ (s : RecState) (B : List ℕ), 4 ≤ B.length →
      bytesToNat (seg B 0 4) ≠ 101 → bytesToNat (seg B 0 4) ≠ 102 →
      recordStep s B = Except.ok s) := by
  refine ⟨?_, ?_, ?_, ?_⟩
  · intro s B hlen h101 h102
    rw [receiverStep, if_neg (by omega), if_neg h101, if_neg h102]
  · intro s B hlen h102 hnone
    rw [receiverStep, if_neg (by omega), if_neg (by rw [h102]; norm_num), if_pos h102, hnone]
  · intro s B hlen h101 hnone
    rw [receiverStep, if_neg (by omega), if_pos h101, hnone]
  · intro s B hlen h101 h102
    rw [recordStep, if_neg (by omega), if_neg h101, if_neg h102]

/-- Witness for C4: a type-999 datagram leaves an empty receiver cache
untouched and the loop alive. -/
theorem C4_decode_failure_isolated_witness :
    receiverStep ⟨none, none, none⟩ badTypeBytes = Except.ok ⟨none, none, none⟩ :=
  C4_decode_failure_isolated.1 ⟨none, none, none⟩ badTypeBytes
    (by decide) (by decide) (by decide)

/-- C5: the recorder's stop conditions are checked before each receive — the
accumulated scan count never exceeds `max_scans`; a check at or past the
duration bound ends recording immediately with the scans gathered so far; and
when enough well-formed scans arrive strictly inside the duration window,
recording stops with exactly `max_scans` scans. -/
theorem C5_recorder_bounds :
    (∀ (maxScans : ℕ) (maxDuration t0 : ℚ) (s : RecState) (evs : List (ℚ × List ℕ)),
      s.scanCount ≤ maxScans →
      (recordRun maxScans maxDuration t0 s evs).scanCount ≤ maxScans) ∧
    (∀ (maxScans : ℕ) (maxDuration t0 : ℚ) (s : RecState) (t : ℚ) (d : List ℕ)
      (rest : List (ℚ × List ℕ)), maxDuration ≤ t - t0 →
      recordRun maxScans maxDuration t0 s ((t, d) :: rest) = s) ∧
    (∀ (maxScans : ℕ) (maxDuration t0 : ℚ) (s : RecState) (evs : List (ℚ × List ℕ)),
      s.scanCount ≤ maxScans →
      (∀ e ∈ evs, e.1 - t0 < maxDuration ∧ bytesToNat (seg e.2 0 4) = 102 ∧
        4 ≤ e.2.length ∧ (parseScanMsg e.2).isSome) →
      maxScans ≤ s.scanCount + evs.length →
      (recordRun maxScans maxDuration t0 s evs).scanCount = maxScans) := by
  refine ⟨?_, ?_, ?_⟩
  · intro maxScans maxDuration t0 s evs
    induction evs generalizing s with
    | nil => intro h; exact h
    | cons e rest ih =>
      intro h
      obtain ⟨t, d⟩ := e
      rw [recordRun]
      by_cases hc : maxScans ≤ s.scanCount
      · rw [if_pos hc]; exact h
      · rw [if_neg hc]
        by_cases ht : maxDuration ≤ t - t0
        · rw [if_pos ht]; exact h
        · rw [if_neg ht]
          cases hstep : recordStep s d with
          | error e => exact h
          | ok s' =>
            have := recordStep_scanCount hstep
            exact ih s' (by omega)
  · intro maxScans maxDuration t0 s t d rest ht
    rw [recordRun]
    by_cases hc : maxScans ≤ s.scanCount
    · rw [if_pos hc]
    · rw [if_neg hc, if_pos ht]
  · intro maxScans maxDuration t0 s evs
    induction evs generalizing s with
    | nil =>
      intro hle _ hge
      rw [recordRun]
      simp at hge
      omega
    | cons e rest ih =>
      intro hle hall hge
      obtain ⟨t, d⟩ := e
      rw [recordRun]
      by_cases hc : maxScans ≤ s.scanCount
      · rw [if_pos hc]; omega
      · rw [if_neg hc]
        obtain ⟨ht, h102, hlen4, hsome⟩ := hall (t, d) (List.mem_cons_self _ _)
        rw [if_neg (not_le.mpr ht)]
        obtain ⟨s', hstep, hcount⟩ := recordStep_goodScan h102 hlen4 hsome
        rw [hstep]
        refine ih s' (by omega) (fun e he => hall e (List.mem_cons_of_mem _ he)) ?_
        rw [List.length_cons] at hge
        omega

/-- Witness for C5: with `max_scans = 3`, `max_duration = 10` and four
well-formed scans arriving at seconds 0..3, recording stops with exactly
three accumulated scans. -/
theorem C5_recorder_bounds_witness :
    (recordRun 3 10 0 initRecState recEvents).scanCount = 3 :=
  C5_recorder_bounds.2.2 3 10 0 initRecState recEvents (by decide)
    (by with_unfolding_all decide) (by decide)

/-- C6: the archive-consistency claim fails on zero-point scans.  Recording
two scans with `valid_count = 0` and saving yields an archive whose
concatenated `points` array has 2 rows (numpy stores each empty scan as a
shape-`(0,)` array and `vstack` promotes it to one row of width 0) while the
`point_scan_indices` array is empty and the valid-point counts sum to 0; with
a mix of zero-point and nonzero-point scans, `vstack` raises instead. -/
theorem C6_archive_zero_point_scans :
    save_data recTwoZero = Except.ok (some archTwoZero) ∧
    archTwoZero.pointBlock = some ⟨⟨[2, 0], [[], []]⟩, []⟩ ∧
    npLen (⟨[2, 0], [[], []]⟩ : NpArr) = 2 ∧
    (recTwoZero.scanData.map (fun sc => sc.validPoints)).sum = 0 ∧
    ([] : List ℕ).length = 0 ∧
    save_data recMixed = Except.error () := by
  refine ⟨?_, ?_, ?_, ?_, ?_, ?_⟩ <;> decide

/-- C7: the confidence of a non-empty cluster lies in `[0, 1]`: the
point-count term and the shape-regularity term are each in `[0, 1]`, their
average is in `[0, 1]`, and the aspect-ratio denominator is strictly
positive (no division by zero). -/
theorem C7_confidence_bounds (cl : List Point) (hne : cl ≠ []) :
    0 ≤ min ((cl.length : ℚ) / 20) 1 ∧ min ((cl.length : ℚ) / 20) 1 ≤ 1 ∧
    0 ≤ max 0 (1 - |max (sizeX cl) (sizeY cl) / (min (sizeX cl) (sizeY cl) + 1/100) - 1|) ∧
    max 0 (1 - |max (sizeX cl) (sizeY cl) / (min (sizeX cl) (sizeY cl) + 1/100) - 1|) ≤ 1 ∧
    0 < min (sizeX cl) (sizeY cl) + 1/100 ∧
    0 ≤ calculate_confidence cl (sizeX cl) (sizeY cl) (sizeZ cl) ∧
    calculate_confidence cl (sizeX cl) (sizeY cl) (sizeZ cl) ≤ 1 := by
  have hp0 : (0:ℚ) ≤ (cl.length : ℚ) / 20 := by positivity
  have hpc0 : (0:ℚ) ≤ min ((cl.length : ℚ) / 20) 1 := le_min hp0 zero_le_one
  have hpc1 : min ((cl.length : ℚ) / 20) 1 ≤ 1 := min_le_right _ _
  have habs : (0:ℚ) ≤
      |max (sizeX cl) (sizeY cl) / (min (sizeX cl) (sizeY cl) + 1/100) - 1| := abs_nonneg _
  have hsc0 : (0:ℚ) ≤
      max 0 (1 - |max (sizeX cl) (sizeY cl) / (min (sizeX cl) (sizeY cl) + 1/100) - 1|) :=
    le_max_left _ _
  have hsc1 :
      max 0 (1 - |max (sizeX cl) (sizeY cl) / (min (sizeX cl) (sizeY cl) + 1/100) - 1|) ≤ 1 :=
    max_le zero_le_one (by linarith)
  have hden : (0:ℚ) < min (sizeX cl) (sizeY cl) + 1/100 := by
    have := le_min (sizeX_nonneg hne) (sizeY_nonneg hne)
    linarith
  have hconf : calculate_confidence cl (sizeX cl) (sizeY cl) (sizeZ cl) =
      (min ((cl.length : ℚ) / 20) 1 +
       max 0 (1 - |max (sizeX cl) (sizeY cl) / (min (sizeX cl) (sizeY cl) + 1/100) - 1|)) / 2 :=
    rfl
  refine ⟨hpc0, hpc1, hsc0, hsc1, hden, ?_, ?_⟩
  · rw [hconf]; linarith
  · rw [hconf]; linarith

/-- Witness for C7 on a degenerate single-point cluster. -/
theorem C7_confidence_bounds_witness :
    0 ≤ calculate_confidence [((0:ℚ), (0:ℚ), (1:ℚ))]
        (sizeX [((0:ℚ), (0:ℚ), (1:ℚ))]) (sizeY [((0:ℚ), (0:ℚ), (1:ℚ))])
        (sizeZ [((0:ℚ), (0:ℚ), (1:ℚ))]) ∧
    calculate_confidence [((0:ℚ), (0:ℚ), (1:ℚ))]
        (sizeX [((0:ℚ), (0:ℚ), (1:ℚ))]) (sizeY [((0:ℚ), (0:ℚ), (1:ℚ))])
        (sizeZ [((0:ℚ), (0:ℚ), (1:ℚ))]) ≤ 1 :=
  ⟨(C7_confidence_bounds _ (by simp)).2.2.2.2.2.1,
   (C7_confidence_bounds _ (by simp)).2.2.2.2.2.2⟩

/-- C8 counterexample: after a `connect()` whose bind raised (`connect`
returned failure), `start_streaming` nevertheless succeeds and spawns the
receive thread, because `self.socket` was assigned before `bind` raised. -/
theorem C8_counterexample :
    (connectFn initReceiver false).1 = false ∧
    (start_streaming (connectFn initReceiver false).2).1 = true ∧
    (start_streaming (connectFn initReceiver false).2).2.threadSpawned = true := by
  refine ⟨rfl, rfl, rfl⟩

/-- C8 (amended): `start_streaming` fails — returning failure and spawning no
thread — exactly when `connect` was never called (the socket attribute is
still `None`); after any call to `connect`, even one whose bind raised,
the socket attribute is set and `start_streaming` succeeds. -/
theorem C8_start_requires_connect :
    (∀ s : ReceiverConn, s.socket = none → start_streaming s = (false, s)) ∧
    initReceiver.socket = none ∧
    (∀ (s : ReceiverConn) (bindOk : Bool), (connectFn s bindOk).1 = bindOk ∧
      (start_streaming (connectFn s bindOk).2).1 = true ∧
      (start_streaming (connectFn s bindOk).2).2.threadSpawned = true) := by
  refine ⟨?_, rfl, ?_⟩
  · intro s h
    rw [start_streaming, h]
  · intro s bindOk
    exact ⟨rfl, rfl, rfl⟩

/-- Witness for C8: the freshly constructed receiver cannot start streaming. -/
theorem C8_start_requires_connect_witness :
    start_streaming initReceiver = (false, initReceiver) :=
  C8_start_requires_connect.1 initReceiver rfl

/-- C9: decoding is independent of the `declared_length` field — two
datagrams identical except in bytes 4..8 yield identical parse results and
identical cache updates — and a parse fails exactly when the datagram is too
short for the field layout (for scans, the layout implied by `valid_count`);
a mismatched declared length alone is never a failure. -/
theorem C9_declared_length_informational :
    (∀ (front d₁ d₂ rest : List ℕ) (s : RecvState),
      front.length = 4 → d₁.length = 4 → d₂.length = 4 →
      parseScanMsg (front ++ (d₁ ++ rest)) = parseScanMsg (front ++ (d₂ ++ rest)) ∧
      parseImuMsg (front ++ (d₁ ++ rest)) = parseImuMsg (front ++ (d₂ ++ rest)) ∧
      receiverStep s (front ++ (d₁ ++ rest)) = receiverStep s (front ++ (d₂ ++ rest))) ∧
    (∀ B : List ℕ, (parseScanMsg B).isSome ↔ 24 + 24 * bytesToNat (seg B 20 4) ≤ B.length) ∧
    (∀ B : List ℕ, (parseImuMsg B).isSome ↔ 60 ≤ B.length) := by
  refine ⟨?_, parseScanMsg_isSome, parseImuMsg_isSome⟩
  intro front d₁ d₂ rest s hf h1 h2
  have hlen : (front ++ (d₁ ++ rest)).length = (front ++ (d₂ ++ rest)).length := by
    simp [hf, h1, h2]
  have hdrop : (front ++ (d₁ ++ rest)).drop 8 = (front ++ (d₂ ++ rest)).drop 8 := by
    rw [← List.append_assoc, ← List.append_assoc]
    rw [List.drop_left' (by rw [List.length_append, hf, h1]),
      List.drop_left' (by rw [List.length_append, hf, h2])]
  have htake : (front ++ (d₁ ++ rest)).take 4 = (front ++ (d₂ ++ rest)).take 4 := by
    rw [List.take_left' hf, List.take_left' hf]
  exact ⟨parseScanMsg_congr hlen hdrop, parseImuMsg_congr hlen hdrop,
    receiverStep_congr hlen htake hdrop s⟩

/-- Witness for C9: a zero-point scan datagram with declared length 16
(correct) and one with declared length 999 parse identically. -/
theorem C9_declared_length_informational_witness :
    parseScanMsg (natToBytes 4 102 ++ (natToBytes 4 16 ++
      (natToBytes 8 0 ++ natToBytes 4 0 ++ natToBytes 4 0))) =
    parseScanMsg (natToBytes 4 102 ++ (natToBytes 4 999 ++
      (natToBytes 8 0 ++ natToBytes 4 0 ++ natToBytes 4 0))) :=
  (C9_declared_length_informational.1 (natToBytes 4 102) (natToBytes 4 16) (natToBytes 4 999)
    (natToBytes 8 0 ++ natToBytes 4 0 ++ natToBytes 4 0) ⟨none, none, none⟩
    (by decide) (by decide) (by decide)).1

/-- C10: every object emitted by `detect_objects` comes from a cluster whose
point count lies in the band `[min_cluster_size, max_cluster_size] = [5, 100]`
(hence also above `MIN_POINTS_PER_CLUSTER = 3`); clusters outside the band
are silently dropped. -/
theorem C10_detect_objects_band (ps : List Point) (o : ObjInfo)
    (h : o ∈ detect_objects ps) :
    min_cluster_size ≤ o.pointCount ∧ o.pointCount ≤ max_cluster_size ∧
    MIN_POINTS_PER_CLUSTER ≤ o.pointCount := by
  rw [detect_objects] at h
  by_cases hlen : (heightFiltered ps).length < min_cluster_size
  · rw [if_pos hlen] at h
    simp at h
  · rw [if_neg hlen] at h
    obtain ⟨cl, _, hcl⟩ := List.mem_filterMap.mp h
    by_cases hband : min_cluster_size ≤ cl.length ∧ cl.length ≤ max_cluster_size
    · rw [if_pos hband] at hcl
      rw [analyze_cluster] at hcl
      by_cases hmin : cl.length < MIN_POINTS_PER_CLUSTER
      · rw [if_pos hmin] at hcl
        cases hcl
      · rw [if_neg hmin] at hcl
        have hpc : o.pointCount = cl.length := by
          cases hcl
          rfl
        rw [hpc]
        refine ⟨hband.1, hband.2, by omega⟩
    · rw [if_neg hband] at hcl
      cases hcl

/-- Witness for C10 on five chained points at height 1 m: the single emitted
object counts five points. -/
theorem C10_detect_objects_band_witness :
    min_cluster_size ≤ ((detect_objects fivePoints).headD objDefault).pointCount ∧
    ((detect_objects fivePoints).headD objDefault).pointCount ≤ max_cluster_size ∧
    MIN_POINTS_PER_CLUSTER ≤ ((detect_objects fivePoints).headD objDefault).pointCount :=
  C10_detect_objects_band fivePoints ((detect_objects fivePoints).headD objDefault)
    (by with_unfolding_all decide)
